import Mathlib

/-!
# ppm2jpg: upload, convert, store under a content-derived name, serve back

A shallow embedding of `main.go`.  The program's own code is `ConvertPPMToJPEG`,
`uploadHandler` and the registration of the static file handler in `main`.  Everything
else it calls is library code; it is modelled here as follows.

* `encoding/hex`, `crypto/sha256`, `path`: executable definitions (`hex.EncodeToString`,
  `sha256.Sum256` after FIPS 180-4, `path.Clean`, `path.Join`, `path.Split`, `path.Base`).
* `netpbm.Decode` and `jpeg.Encode`: parameters (`Codec`); every theorem holds for whatever
  these two functions compute.
* `os.WriteFile`: a file system is a map from path to contents; the operating system's
  behaviour on a write (success, failure at open, failure part-way) is an input
  (`WriteFault`), following the documented behaviour of `os.WriteFile`.
* `net/http`: a `ResponseWriter` records headers, status and body; `http.Error`,
  `http.StripPrefix`, `http.FileServer` and `http.Dir` are modelled for requests without
  conditional or range headers, over a file system that holds regular files only.
-/

namespace Ppm2jpg

/-- A Go `byte`. -/
abbrev Byte := Fin 256

/-- A Go `[]byte`. -/
abbrev Bytes := List Byte

/-! ## encoding/hex -/

namespace hex

/-- The digit table of `encoding/hex`. -/
def hextable : List Char := "0123456789abcdef".toList

/-- Entry `n` of the digit table. -/
def hexDigit (n : Nat) : Char := hextable.getD n '0'

/-- Two digits per byte, high nibble first (`hextable[v>>4]`, `hextable[v&0x0f]`). -/
def encode : Bytes → List Char
  | [] => []
  | v :: rest => hexDigit (v.val / 16) :: hexDigit (v.val % 16) :: encode rest

/-- Go's `hex.EncodeToString`. -/
def EncodeToString (src : Bytes) : String := String.mk (encode src)

end hex

/-! ## crypto/sha256 (FIPS 180-4), on 32-bit words held in `Nat` -/

namespace sha256

/-- The 64 round constants. -/
def K : List Nat := [
  0x428a2f98, 0x71374491, 0xb5c0fbcf, 0xe9b5dba5, 0x3956c25b, 0x59f111f1, 0x923f82a4, 0xab1c5ed5,
  0xd807aa98, 0x12835b01, 0x243185be, 0x550c7dc3, 0x72be5d74, 0x80deb1fe, 0x9bdc06a7, 0xc19bf174,
  0xe49b69c1, 0xefbe4786, 0x0fc19dc6, 0x240ca1cc, 0x2de92c6f, 0x4a7484aa, 0x5cb0a9dc, 0x76f988da,
  0x983e5152, 0xa831c66d, 0xb00327c8, 0xbf597fc7, 0xc6e00bf3, 0xd5a79147, 0x06ca6351, 0x14292967,
  0x27b70a85, 0x2e1b2138, 0x4d2c6dfc, 0x53380d13, 0x650a7354, 0x766a0abb, 0x81c2c92e, 0x92722c85,
  0xa2bfe8a1, 0xa81a664b, 0xc24b8b70, 0xc76c51a3, 0xd192e819, 0xd6990624, 0xf40e3585, 0x106aa070,
  0x19a4c116, 0x1e376c08, 0x2748774c, 0x34b0bcb5, 0x391c0cb3, 0x4ed8aa4a, 0x5b9cca4f, 0x682e6ff3,
  0x748f82ee, 0x78a5636f, 0x84c87814, 0x8cc70208, 0x90befffa, 0xa4506ceb, 0xbef9a3f7, 0xc67178f2]

/-- Rotate a 32-bit word right by `n`. -/
def rotr (x n : Nat) : Nat := ((x >>> n) ||| (x <<< (32 - n))) % 2 ^ 32

/-- The padded message: the data, `0x80`, zeros up to 56 modulo 64, the bit length on
eight bytes, big-endian. -/
def pad (msg : List Nat) : List Nat :=
  let len := msg.length
  let zeros := (119 - len % 64) % 64
  msg ++ [0x80] ++ List.replicate zeros 0 ++
    (List.range 8).map (fun i => ((len * 8) >>> (8 * (7 - i))) % 256)

/-- A big-endian 32-bit word. -/
def word (b0 b1 b2 b3 : Nat) : Nat := b0 <<< 24 ||| b1 <<< 16 ||| b2 <<< 8 ||| b3

/-- The first `n` big-endian words of a byte sequence. -/
def words : Nat → List Nat → List Nat
  | 0, _ => []
  | n + 1, b0 :: b1 :: b2 :: b3 :: rest => word b0 b1 b2 b3 :: words n rest
  | _ + 1, _ => []

/-- Extends the message schedule by `n` words; `w` is held newest first, so `w[1]` is
`W[t-2]`, `w[6]` is `W[t-7]`, `w[14]` is `W[t-15]` and `w[15]` is `W[t-16]`. -/
def schedule : Nat → List Nat → List Nat
  | 0, w => w
  | n + 1, w =>
    let v1 := w.getD 1 0
    let v0 := w.getD 14 0
    let t1 := rotr v1 17 ^^^ rotr v1 19 ^^^ (v1 >>> 10)
    let t2 := rotr v0 7 ^^^ rotr v0 18 ^^^ (v0 >>> 3)
    schedule n (((t1 + w.getD 6 0 + t2 + w.getD 15 0) % 2 ^ 32) :: w)

/-- The eight working variables. -/
structure Regs where
  a : Nat
  b : Nat
  c : Nat
  d : Nat
  e : Nat
  f : Nat
  g : Nat
  h : Nat

/-- One round of the compression function. -/
def round (r : Regs) (k w : Nat) : Regs :=
  let t1 := r.h + (rotr r.e 6 ^^^ rotr r.e 11 ^^^ rotr r.e 25) +
    ((r.e &&& r.f) ^^^ ((r.e ^^^ 0xffffffff) &&& r.g)) + k + w
  let t2 := (rotr r.a 2 ^^^ rotr r.a 13 ^^^ rotr r.a 22) +
    ((r.a &&& r.b) ^^^ (r.a &&& r.c) ^^^ (r.b &&& r.c))
  { a := (t1 + t2) % 2 ^ 32, b := r.a, c := r.b, d := r.c,
    e := (r.d + t1) % 2 ^ 32, f := r.e, g := r.f, h := r.g }

/-- The rounds, one per constant and schedule word. -/
def rounds : Regs → List Nat → List Nat → Regs
  | r, k :: ks, w :: ws => rounds (round r k w) ks ws
  | r, _, _ => r

/-- Processes one 64-byte block, the first 64 bytes of `p`. -/
def block (h : Regs) (p : List Nat) : Regs :=
  let w := (schedule 48 (words 16 p).reverse).reverse
  let r := rounds h K w
  { a := (h.a + r.a) % 2 ^ 32, b := (h.b + r.b) % 2 ^ 32, c := (h.c + r.c) % 2 ^ 32,
    d := (h.d + r.d) % 2 ^ 32, e := (h.e + r.e) % 2 ^ 32, f := (h.f + r.f) % 2 ^ 32,
    g := (h.g + r.g) % 2 ^ 32, h := (h.h + r.h) % 2 ^ 32 }

/-- Processes `n` consecutive blocks of `p`. -/
def blocks : Nat → Regs → List Nat → Regs
  | 0, h, _ => h
  | n + 1, h, p => blocks n (block h p) (p.drop 64)

/-- The low byte of a number. -/
def byteOf (n : Nat) : Byte := ⟨n % 256, Nat.mod_lt _ (by decide)⟩

/-- The four bytes of a word, big-endian. -/
def wordBytes (x : Nat) : Bytes :=
  [byteOf (x >>> 24), byteOf (x >>> 16), byteOf (x >>> 8), byteOf x]

/-- Go's `sha256.Sum256`: the 32-byte digest of the data. -/
def Sum256 (data : Bytes) : Bytes :=
  let p := pad (data.map Fin.val)
  let h := blocks (p.length / 64)
    { a := 0x6a09e667, b := 0xbb67ae85, c := 0x3c6ef372, d := 0xa54ff53a,
      e := 0x510e527f, f := 0x9b05688c, g := 0x1f83d9ab, h := 0x5be0cd19 } p
  wordBytes h.a ++ wordBytes h.b ++ wordBytes h.c ++ wordBytes h.d ++
    wordBytes h.e ++ wordBytes h.f ++ wordBytes h.g ++ wordBytes h.h

end sha256

/-! ## path -/

namespace path

/-- Puts a character in front of the first component. -/
def consHead (c : Char) : List (List Char) → List (List Char)
  | [] => [[c]]
  | x :: xs => (c :: x) :: xs

/-- The components of a path: what stands between its slashes. -/
def splitSlash : List Char → List (List Char)
  | [] => [[]]
  | c :: cs => if c = '/' then [] :: splitSlash cs else consHead c (splitSlash cs)

/-- One component processed by `Clean`; the stack holds the kept components, last first.
An empty component or `.` is dropped; `..` removes the last kept component when there is
one that is not itself `..`, is kept on a relative path, and is dropped at the root. -/
def cleanStep (rooted : Bool) (stack : List (List Char)) (c : List Char) : List (List Char) :=
  if c = [] ∨ c = ['.'] then stack
  else if c = ['.', '.'] then
    match stack with
    | [] => if rooted then [] else [c]
    | top :: rest => if top = ['.', '.'] then (if rooted then stack else c :: stack) else rest
  else c :: stack

/-- Components joined by single slashes. -/
def joinSlash : List (List Char) → List Char
  | [] => []
  | [c] => c
  | c :: cs => c ++ '/' :: joinSlash cs

/-- The kept components of a path, last first. -/
def cleanStack (p : List Char) : List (List Char) :=
  (splitSlash p).foldl (cleanStep (p.head? = some '/')) []

/-- Go's `path.Clean` on characters. -/
def cleanChars (p : List Char) : List Char :=
  if p = [] then ['.']
  else
    let out := (if p.head? = some '/' then ['/'] else []) ++ joinSlash (cleanStack p).reverse
    if out = [] then ['.'] else out

/-- Go's `path.Clean`: the shortest path name equivalent to `p`. -/
def Clean (p : String) : String := String.mk (cleanChars p.data)

/-- The buffer `path.Join` builds: leading empty elements are skipped, the others are
separated by a slash. -/
def joinBuf : List Char → List String → List Char
  | buf, [] => buf
  | buf, e :: es =>
    if buf ≠ [] ∨ e ≠ "" then
      joinBuf (if buf ≠ [] then buf ++ '/' :: e.data else e.data) es
    else joinBuf buf es

/-- Go's `path.Join` (and `filepath.Join` where the separator is the slash). -/
def Join (elem : List String) : String :=
  if (elem.map String.length).sum = 0 then "" else Clean (String.mk (joinBuf [] elem))

/-- Go's `path.Split`: the path up to and including its last slash, and the rest. -/
def Split (p : String) : String × String :=
  let comps := splitSlash p.data
  let file := comps.getLast?.getD []
  (String.mk (p.data.take (p.data.length - file.length)), String.mk file)

/-- Removes trailing slashes. -/
def dropTrailingSlashes (p : List Char) : List Char :=
  (p.reverse.dropWhile (fun c => c = '/')).reverse

/-- Go's `path.Base`: the last element of the path. -/
def Base (p : String) : String :=
  if p = "" then "."
  else
    let q := (splitSlash (dropTrailingSlashes p.data)).getLast?.getD []
    if q = [] then "/" else String.mk q

end path

/-! ## strings -/

/-- Go's `strings.HasPrefix`. -/
def hasPrefix (s pre : String) : Bool := pre.data.isPrefixOf s.data

/-- Go's `strings.HasSuffix`. -/
def hasSuffix (s suf : String) : Bool := suf.data.isSuffixOf s.data

/-- Go's `strings.TrimPrefix`. -/
def trimPrefix (s pre : String) : String :=
  if hasPrefix s pre then String.mk (s.data.drop pre.data.length) else s

/-- Go's `strings.Contains`: `sub` occurs in `s`. -/
def Contains (s sub : String) : Prop := sub.data <:+: s.data

/-! ## os: the file system -/

/-- A file system: the contents of the regular file at each path, if there is one. -/
abbrev FS := String → Option Bytes

/-- The file system with the file at `name` holding exactly `data`. -/
def FS.write (fs : FS) (name : String) (data : Bytes) : FS :=
  fun q => if q = name then some data else fs q

/-- What the operating system does with one `os.WriteFile` call. -/
inductive WriteFault where
  /-- The file is opened, written in full and closed. -/
  | none
  /-- Opening (creating or truncating) the file fails; nothing is touched. -/
  | openFails (errno : String)
  /-- The file is created or truncated, `written` bytes reach it, then writing or closing
  fails. -/
  | writeFails (written : Nat) (errno : String)

namespace os

/-- Go's `os.WriteFile`: opens `name` with `O_WRONLY|O_CREATE|O_TRUNC`, writes `data`,
closes.  "Since WriteFile requires multiple system calls to complete, a failure
mid-operation can leave the file in a partially written state."  The error, when there is
one, is a `PathError`, printed as operation, path, cause. -/
def WriteFile (fault : WriteFault) (fs : FS) (name : String) (data : Bytes) (_perm : Nat) :
    Option String × FS :=
  match fault with
  | .none => (Option.none, fs.write name data)
  | .openFails errno => (some ("open " ++ name ++ ": " ++ errno), fs)
  | .writeFails written errno =>
    (some ("write " ++ name ++ ": " ++ errno), fs.write name (data.take written))

end os

/-! ## net/http: requests and response writers -/

/-- The uploaded file `r.FormFile` hands back: `content` is what `io.ReadAll` returns on it. -/
structure MultipartFile where
  content : Except String Bytes

/-- The parts of an `http.Request` the handlers read. -/
structure Request where
  /-- The request method. -/
  Method : String
  /-- The path of the request URL, `r.URL.Path`. -/
  Path : String
  /-- The result of `r.FormFile(key)`. -/
  FormFile : String → Except String MultipartFile

/-- An `http.ResponseWriter`: the header map, the status once it is written, the body. -/
structure ResponseWriter where
  header : List (String × String)
  status : Option Nat
  body : String

namespace ResponseWriter

/-- The writer the server hands to a handler. -/
def fresh : ResponseWriter := { header := [], status := Option.none, body := "" }

/-- The `w.Header().Set(key, value)` call. -/
def HeaderSet (w : ResponseWriter) (key value : String) : ResponseWriter :=
  { w with header := (key, value) :: w.header.filter (fun kv => kv.1 ≠ key) }

/-- The `w.Header().Del(key)` call. -/
def HeaderDel (w : ResponseWriter) (key : String) : ResponseWriter :=
  { w with header := w.header.filter (fun kv => kv.1 ≠ key) }

/-- The `w.Header().Get(key)` call. -/
def HeaderGet (w : ResponseWriter) (key : String) : Option String :=
  (w.header.find? (fun kv => kv.1 = key)).map Prod.snd

/-- The `w.WriteHeader(code)` call: the first call fixes the status. -/
def WriteHeader (w : ResponseWriter) (code : Nat) : ResponseWriter :=
  match w.status with
  | some _ => w
  | Option.none => { w with status := some code }

/-- The `w.Write` call: writes status 200 first when no status was written. -/
def Write (w : ResponseWriter) (s : String) : ResponseWriter :=
  let w1 := w.WriteHeader 200
  { w1 with body := w1.body ++ s }

end ResponseWriter

/-- Go's `fmt.Fprintln(w, s)` with one string operand. -/
def Fprintln (w : ResponseWriter) (s : String) : ResponseWriter := w.Write (s ++ "\n")

namespace http

/-- Go's `http.Error`: a plain-text reply with the given status. -/
def Error (w : ResponseWriter) (error : String) (code : Nat) : ResponseWriter :=
  let w1 := w.HeaderDel "Content-Length"
  let w2 := w1.HeaderSet "Content-Type" "text/plain; charset=utf-8"
  let w3 := w2.HeaderSet "X-Content-Type-Options" "nosniff"
  Fprintln (w3.WriteHeader code) error

end http

/-! ## The image libraries -/

/-- The formats of `netpbm`. -/
inductive Format where
  | PNM | PBM | PGM | PPM | PAM
  deriving DecidableEq

/-- The fields of `netpbm.DecodeOptions` the program sets. -/
structure DecodeOptions where
  Target : Format
  Exact : Bool

/-- The fields of `jpeg.Options`. -/
structure JpegOptions where
  Quality : Nat

/-- The two library functions the conversion calls, for an image type `Image`. -/
structure Codec (Image : Type) where
  /-- `netpbm.Decode(bytes.NewReader(data), opts)`. -/
  netpbmDecode : Bytes → DecodeOptions → Except String Image
  /-- `jpeg.Encode(&buf, img, o)`, returning the bytes of `buf`. -/
  jpegEncode : Image → Option JpegOptions → Except String Bytes

/-! ## main.go -/

/-- The package variables `storageDir`, `baseURL` and `port`, set once from the flags. -/
structure Config where
  storageDir : String
  baseURL : String
  port : Int

/-- The flag defaults. -/
def Config.default : Config :=
  { storageDir := "storage", baseURL := "http://localhost:8080", port := 8080 }

/-- ConvertPPMToJPEG converts a PPM image to a JPEG image. -/
def ConvertPPMToJPEG {Image : Type} (lib : Codec Image) (data : Bytes) : Except String Bytes :=
  match lib.netpbmDecode data { Target := Format.PPM, Exact := false } with
  | .error err => .error err
  | .ok img =>
    match lib.jpegEncode img Option.none with
    | .error err => .error err
    | .ok buf => .ok buf

/-- The name the upload handler gives the file holding `jpegData`. -/
def fileName (jpegData : Bytes) : String :=
  hex.EncodeToString (sha256.Sum256 jpegData) ++ ".jpg"

/-- The handler `uploadHandler`: the response writer and the file system it leaves. -/
def uploadHandler {Image : Type} (cfg : Config) (lib : Codec Image) (fault : WriteFault)
    (w : ResponseWriter) (r : Request) (fs : FS) : ResponseWriter × FS :=
  if r.Method ≠ "POST" then
    (http.Error w "Invalid request method" 405, fs)
  else
    match r.FormFile "image" with
    | .error _ => (http.Error w "Error reading file" 400, fs)
    | .ok file =>
      match file.content with
      | .error _ => (http.Error w "Error reading file" 500, fs)
      | .ok data =>
        match ConvertPPMToJPEG lib data with
        | .error err => (http.Error w ("Error converting to JPEG: " ++ err) 500, fs)
        | .ok jpegData =>
          let hashBytes := sha256.Sum256 jpegData
          let hash := hex.EncodeToString hashBytes
          match os.WriteFile fault fs (path.Join [cfg.storageDir, hash ++ ".jpg"]) jpegData 0o750 with
          | (some err, fs1) => (http.Error w ("Error storing the JPEG: " ++ err) 500, fs1)
          | (Option.none, fs1) =>
            (Fprintln (w.HeaderSet "Content-Type" "text/plain")
              (cfg.baseURL ++ "/files/" ++ hash ++ ".jpg"), fs1)

/-- One upload request served on a fresh response writer. -/
def upload {Image : Type} (cfg : Config) (lib : Codec Image) (fault : WriteFault)
    (r : Request) (fs : FS) : ResponseWriter × FS :=
  uploadHandler cfg lib fault ResponseWriter.fresh r fs

/-- A sequence of upload requests, each with what the operating system does to its write. -/
def uploads {Image : Type} (cfg : Config) (lib : Codec Image) :
    List (WriteFault × Request) → FS → FS
  | [], fs => fs
  | (fault, r) :: rest, fs => uploads cfg lib rest (upload cfg lib fault r fs).2

/-! ## net/http: the static file handler -/

/-- What the file handler answers. -/
inductive Served where
  /-- The status and the bytes `serveContent` sends. -/
  | content (code : Nat) (bytes : Bytes)
  /-- A `localRedirect`. -/
  | redirect (code : Nat) (location : String)
  /-- An `http.Error`. -/
  | error (msg : String) (code : Nat)

namespace http

/-- The path `http.Dir(dir).Open(name)` opens. -/
def dirPath (dir name : String) : String :=
  let p := String.mk ((path.Clean ("/" ++ name)).data.drop 1)
  let p := if p = "" then "." else p
  let dir := if dir = "" then "." else dir
  path.Join [dir, p]

/-- The file `http.Dir(dir).Open(name)` finds. -/
def dirOpen (dir : String) (fs : FS) (name : String) : Option Bytes := fs (dirPath dir name)

/-- Go's `serveFile` with `redirect` set, on regular files. -/
def serveFile (root : String) (fs : FS) (r : Request) (name : String) : Served :=
  if hasSuffix r.Path "/index.html" then Served.redirect 301 "./"
  else
    match dirOpen root fs name with
    | Option.none => Served.error "404 page not found" 404
    | some bytes =>
      if r.Path.data.getLast? = some '/' then
        let base := path.Base r.Path
        if base = "/" ∨ base = "." then Served.error "404 page not found" 404
        else Served.redirect 301 ("../" ++ base)
      else Served.content 200 (if r.Method = "HEAD" then [] else bytes)

/-- The handler `http.FileServer(http.Dir(root))`. -/
def FileServer (root : String) (fs : FS) (r : Request) : Served :=
  let upath := if hasPrefix r.Path "/" then r.Path else "/" ++ r.Path
  serveFile root fs { r with Path := upath } (path.Clean upath)

/-- The handler `http.StripPrefix(pre, h)`. -/
def stripPrefixHandler (pre : String) (h : Request → Served) (r : Request) : Served :=
  if pre = "" then h r
  else
    let p := trimPrefix r.Path pre
    if p.length < r.Path.length then h { r with Path := p }
    else Served.error "404 page not found" 404

end http

/-- The handler `main` registers for the pattern `/files/`, which the server's multiplexer
calls for every request whose path starts with `/files/`. -/
def filesHandler (cfg : Config) (fs : FS) (r : Request) : Served :=
  http.stripPrefixHandler "/files/" (http.FileServer cfg.storageDir fs) r

/-! ## Vocabulary of the statements -/

namespace path

/-- A plain file name: not empty, without a slash, and neither `.` nor `..`. -/
def Flat (n : List Char) : Prop := n ≠ [] ∧ '/' ∉ n ∧ n ≠ ['.'] ∧ n ≠ ['.', '.']

/-- The directory part of every path joined onto the storage directory `sd`: empty, or
ending in a slash. -/
def dirPart (sd : List Char) : List Char :=
  if sd = [] then []
  else (if sd.head? = some '/' then ['/'] else []) ++
    (if cleanStack sd = [] then [] else joinSlash (cleanStack sd).reverse ++ ['/'])

/-- The directory `dir` as the front part of the paths of its files: empty for the current
directory, `/` for the root, else the cleaned directory followed by a slash. -/
def asDir (dir : String) : String :=
  if Clean dir = "." then "" else if Clean dir = "/" then "/" else Clean dir ++ "/"

/-- What `Clean` keeps on its stack: components that are not empty, not `.`, and hold no
slash. -/
def Kept (c : List Char) : Prop := c ≠ [] ∧ c ≠ ['.'] ∧ '/' ∉ c

end path

/-- Every file directly under the storage directory is named by the digest of its
contents: its name is the lowercase hexadecimal SHA-256 of its bytes followed by `.jpg`. -/
def StoredInvariant (cfg : Config) (fs : FS) : Prop :=
  ∀ (name : String) (c : Bytes), path.Flat name.data →
    fs (path.Join [cfg.storageDir, name]) = some c → name = fileName c

/-- The write goes through in full or fails before the file is touched. -/
def WriteFault.allOrNothing : WriteFault → Prop
  | .none => True
  | .openFails _ => True
  | .writeFails _ _ => False

/-! ## Sample inputs -/

/-- ASCII white space. -/
def isSpace (b : Byte) : Bool := b.val = 32 || (9 ≤ b.val && b.val ≤ 13)

/-- One step of `fields`, from the right: the field being read and the fields read. -/
def fieldStep (b : Byte) (acc : Bytes × List Bytes) : Bytes × List Bytes :=
  if isSpace b then ([], if acc.1 = [] then acc.2 else acc.1 :: acc.2) else (b :: acc.1, acc.2)

/-- The fields of a byte sequence that white space separates. -/
def fields (data : Bytes) : List Bytes :=
  let acc := data.foldr fieldStep ([], [])
  if acc.1 = [] then acc.2 else acc.1 :: acc.2

/-- The bytes of a text. -/
def bytesOf (s : String) : Bytes := s.data.map (fun c => sha256.byteOf c.toNat)

/-- A stand-in for the two image libraries, to run the handlers on concrete inputs: the
decoder reads the white-space separated fields of a plain PPM file (magic number `P3`)
and fails on anything else; the encoder puts the fields between the JPEG start and end
markers. -/
def sampleCodec : Codec (List Bytes) where
  netpbmDecode := fun data _ =>
    match fields data with
    | [] => .error "unexpected EOF"
    | magic :: rest =>
      if magic = bytesOf "P3" then .ok rest else .error "netpbm: invalid magic number"
  jpegEncode := fun img _ => .ok ([0xff, 0xd8] ++ img.flatten ++ [0xff, 0xd9])

/-- A POST request to `/upload` whose form field `image` holds `data`. -/
def sampleRequest (data : Bytes) : Request where
  Method := "POST"
  Path := "/upload"
  FormFile := fun key =>
    if key = "image" then .ok { content := .ok data } else .error "http: no such file"

/-- The file system without any file. -/
def emptyFS : FS := fun _ => Option.none

/-- A 1x1 plain PPM image, one field per line. -/
def samplePPM : Bytes := bytesOf "P3\n1 1\n255\n0 0 0\n"

/-- The same image with its fields on one line. -/
def samplePPMOneLine : Bytes := bytesOf "P3 1 1 255 0 0 0\n"

/-- What `sampleCodec` makes of `samplePPM`. -/
def sampleJPEG : Bytes := [0xff, 0xd8, 49, 49, 50, 53, 53, 48, 48, 48, 0xff, 0xd9]

/-- A second 1x1 plain PPM image, of another colour. -/
def samplePPMWhite : Bytes := bytesOf "P3\n1 1\n255\n255 255 255\n"

/-- What `sampleCodec` makes of `samplePPMWhite`. -/
def sampleJPEGWhite : Bytes :=
  [0xff, 0xd8, 49, 49, 50, 53, 53, 50, 53, 53, 50, 53, 53, 50, 53, 53, 0xff, 0xd9]

/-- A GET request for a path. -/
def getRequest (p : String) : Request where
  Method := "GET"
  Path := p
  FormFile := fun _ => .error "request Content-Type isn't multipart/form-data"

/-- A configuration whose storage path and base URL overlap. -/
def overlapConfig : Config := { storageDir := "/files", baseURL := "", port := 8080 }

/-! ## The library models on known values -/

set_option maxRecDepth 100000 in
/-- Test vectors of FIPS 180-4: the empty message, `abc`, and a message of two blocks. -/
theorem sha256.Sum256_vectors :
    hex.EncodeToString (sha256.Sum256 [])
      = "e3b0c44298fc1c149afbf4c8996fb92427ae41e4649b934ca495991b7852b855" ∧
    hex.EncodeToString (sha256.Sum256 (bytesOf "abc"))
      = "ba7816bf8f01cfea414140de5dae2223b00361a396177a9cb410ff61f20015ad" ∧
    hex.EncodeToString
        (sha256.Sum256 (bytesOf "abcdbcdecdefdefgefghfghighijhijkijkljklmklmnlmnomnopnopq"))
      = "248d6a61d20638b8e5c026930c3e6039a33ce45964ff2167f6ecedd419db06c1" := by
  refine ⟨by decide, by decide, by decide⟩

/-- Cases of the test table of Go's `path.Clean`. -/
theorem path.Clean_vectors :
    ["", "abc", "abc/def", ".", "..", "../../abc", "/abc", "/", "abc/", "./", "../../",
      "abc//def//ghi", "//abc//", "abc/./def", "/./abc/def", "abc/def/ghi/../jkl",
      "abc/def/../..", "/abc/def/../..", "abc/def/../../..", "/abc/def/../../..",
      "abc/def/../../../ghi/jkl/../../../mno", "abc//./../def", "abc/../../././../def"].map
      path.Clean
    = [".", "abc", "abc/def", ".", "..", "../../abc", "/abc", "/", "abc", ".", "../..",
      "abc/def/ghi", "/abc", "abc/def", "/abc/def", "abc/def/jkl",
      ".", "/", "..", "/",
      "../../mno", "def", "../../def"] := by
  decide

/-- Cases of `path.Join`, `path.Split` and `path.Base`. -/
theorem path.Join_vectors :
    path.Join ["storage", "a.jpg"] = "storage/a.jpg" ∧ path.Join ["", "a.jpg"] = "a.jpg" ∧
    path.Join ["/", "a.jpg"] = "/a.jpg" ∧ path.Join ["a/../..", "b"] = "../b" ∧
    path.Join ["a", ""] = "a" ∧ path.Join ["", ""] = "" ∧
    path.Split "static/myfile.css" = ("static/", "myfile.css") ∧
    path.Split "myfile.css" = ("", "myfile.css") ∧ path.Split "a/b/" = ("a/b/", "") ∧
    path.Base "/a/b" = "b" ∧ path.Base "/" = "/" ∧ path.Base "" = "." ∧ path.Base "a//" = "a" := by
  decide

/-! ## Lemmas -/

theorem hex.encode_length (b : Bytes) : (hex.encode b).length = 2 * b.length := by
  induction b with
  | nil => rfl
  | cons v rest ih => simp [hex.encode, ih]; omega

theorem hex.hexDigit_mem (n : Nat) (h : n < 16) : hex.hexDigit n ∈ hex.hextable := by
  have : ∀ k : Fin 16, hex.hexDigit k.val ∈ hex.hextable := by decide
  exact this ⟨n, h⟩

theorem hex.encode_mem (b : Bytes) : ∀ c ∈ hex.encode b, c ∈ hex.hextable := by
  induction b with
  | nil => intro c hc; simp [hex.encode] at hc
  | cons v rest ih =>
    intro c hc
    simp only [hex.encode, List.mem_cons] at hc
    rcases hc with rfl | rfl | hc
    · exact hex.hexDigit_mem _ (by omega)
    · exact hex.hexDigit_mem _ (Nat.mod_lt _ (by decide))
    · exact ih c hc

theorem hex.hexDigit_inj (m n : Nat) (hm : m < 16) (hn : n < 16)
    (h : hex.hexDigit m = hex.hexDigit n) : m = n := by
  have : ∀ a b : Fin 16, hex.hexDigit a.val = hex.hexDigit b.val → a = b := by decide
  exact congrArg Fin.val (this ⟨m, hm⟩ ⟨n, hn⟩ h)

theorem hex.encode_inj : ∀ (a b : Bytes), hex.encode a = hex.encode b → a = b
  | [], [], _ => rfl
  | [], _ :: _, h => by simp [hex.encode] at h
  | _ :: _, [], h => by simp [hex.encode] at h
  | x :: xs, y :: ys, h => by
    simp only [hex.encode, List.cons.injEq] at h
    obtain ⟨h1, h2, h3⟩ := h
    have e1 := hex.hexDigit_inj _ _ (by omega) (by omega) h1
    have e2 := hex.hexDigit_inj _ _ (Nat.mod_lt _ (by decide)) (Nat.mod_lt _ (by decide)) h2
    have : x = y := by apply Fin.ext; omega
    rw [this, hex.encode_inj xs ys h3]

theorem sha256.Sum256_length (data : Bytes) : (sha256.Sum256 data).length = 32 := by
  simp [sha256.Sum256, sha256.wordBytes]

theorem fileName_data (j : Bytes) :
    (fileName j).data = hex.encode (sha256.Sum256 j) ++ ['.', 'j', 'p', 'g'] := by
  simp [fileName, hex.EncodeToString]

namespace path

theorem splitSlash_ne_nil (p : List Char) : splitSlash p ≠ [] := by
  cases p with
  | nil => simp [splitSlash]
  | cons c cs =>
    simp only [splitSlash]
    split
    · simp
    · cases h : splitSlash cs <;> simp [consHead]

theorem splitSlash_noSlash (n : List Char) (h : '/' ∉ n) : splitSlash n = [n] := by
  induction n with
  | nil => rfl
  | cons c cs ih =>
    simp only [List.mem_cons, not_or] at h
    have hc : c ≠ '/' := fun e => h.1 e.symm
    simp [splitSlash, hc, ih h.2, consHead]

theorem consHead_append (c : Char) (xs ys : List (List Char)) (h : xs ≠ []) :
    consHead c (xs ++ ys) = consHead c xs ++ ys := by
  cases xs with
  | nil => exact absurd rfl h
  | cons x xs => rfl

theorem splitSlash_append (a b : List Char) :
    splitSlash (a ++ '/' :: b) = splitSlash a ++ splitSlash b := by
  induction a with
  | nil => simp [splitSlash]
  | cons c cs ih =>
    by_cases hc : c = '/'
    · simp [splitSlash, hc, ih]
    · simp [splitSlash, hc, ih, consHead_append _ _ _ (splitSlash_ne_nil cs)]

theorem cleanStep_flat (rooted : Bool) (st : List (List Char)) (n : List Char) (h : Flat n) :
    cleanStep rooted st n = n :: st := by
  obtain ⟨h1, _, h3, h4⟩ := h
  simp [cleanStep, h1, h3, h4]

theorem joinSlash_snoc (st : List (List Char)) (n : List Char) :
    joinSlash (st ++ [n]) = if st = [] then n else joinSlash st ++ '/' :: n := by
  induction st with
  | nil => simp [joinSlash]
  | cons x xs ih =>
    cases xs with
    | nil => simp [joinSlash]
    | cons y ys =>
      simp only [List.cons_append, joinSlash] at ih ⊢
      simp [ih]

theorem cleanChars_flat (n : List Char) (h : Flat n) : cleanChars n = n := by
  have hn := h.1
  have hs := h.2.1
  have hh : n.head? ≠ some '/' := by
    cases n with
    | nil => simp
    | cons c cs =>
      simp only [List.mem_cons, not_or] at hs
      simpa using fun e => hs.1 e.symm
  simp [cleanChars, cleanStack, hn, hh, splitSlash_noSlash n hs, cleanStep_flat _ _ _ h,
    joinSlash]

theorem cleanChars_slash_flat (n : List Char) (h : Flat n) : cleanChars ('/' :: n) = '/' :: n := by
  have hs := h.2.1
  have h0 : cleanStep true [] [] = [] := by simp [cleanStep]
  simp [cleanChars, cleanStack, splitSlash, splitSlash_noSlash n hs, h0, cleanStep_flat _ _ _ h,
    joinSlash]

theorem cleanChars_dir_flat (a n : List Char) (ha : a ≠ []) (h : Flat n) :
    cleanChars (a ++ '/' :: n) = dirPart a ++ n := by
  have hhead : (a ++ '/' :: n).head? = a.head? := by
    cases a with
    | nil => exact absurd rfl ha
    | cons c cs => rfl
  have hst : cleanStack (a ++ '/' :: n) = n :: cleanStack a := by
    simp only [cleanStack, hhead, splitSlash_append, splitSlash_noSlash n h.2.1,
      List.foldl_append, List.foldl_cons, List.foldl_nil]
    exact cleanStep_flat _ _ _ h
  have hne : a ++ '/' :: n ≠ [] := by simp
  simp only [cleanChars, hne, if_false, hhead, hst, List.reverse_cons, joinSlash_snoc, dirPart, ha]
  by_cases hr : a.head? = some '/' <;> by_cases he : cleanStack a = [] <;>
    simp [hr, he, h.1]

theorem dirPart_shape (a : List Char) : dirPart a = [] ∨ ∃ q, dirPart a = q ++ ['/'] := by
  unfold dirPart
  by_cases ha : a = []
  · simp [ha]
  · by_cases hr : a.head? = some '/' <;> by_cases he : cleanStack a = []
    · right; exact ⟨[], by simp [ha, hr, he]⟩
    · right; exact ⟨'/' :: joinSlash (cleanStack a).reverse, by simp [ha, hr, he]⟩
    · left; simp [ha, hr, he]
    · right; exact ⟨joinSlash (cleanStack a).reverse, by simp [ha, hr, he]⟩

theorem splitSlash_getLast (a n : List Char) (hn : '/' ∉ n)
    (ha : a = [] ∨ ∃ q, a = q ++ ['/']) : (splitSlash (a ++ n)).getLast? = some n := by
  rcases ha with rfl | ⟨q, rfl⟩
  · simp [splitSlash_noSlash n hn]
  · have : q ++ ['/'] ++ n = q ++ '/' :: n := by simp
    rw [this, splitSlash_append, splitSlash_noSlash n hn]
    simp

theorem Join_flat (sd name : String) (h : Flat name.data) :
    (Join [sd, name]).data = dirPart sd.data ++ name.data := by
  have hlen : name.length ≠ 0 := by
    have := h.1
    simp only [String.length]
    exact fun e => this (List.length_eq_zero.mp e)
  have hname : name ≠ "" := by
    intro e; rw [e] at hlen; exact hlen rfl
  have hsum : ¬ (([sd, name].map String.length).sum = 0) := by
    simp only [List.map_cons, List.map_nil, List.sum_cons, List.sum_nil]; omega
  simp only [Join, hsum, if_false, Clean]
  by_cases hsd : sd = ""
  · subst hsd
    simp [joinBuf, hname, dirPart, cleanChars_flat _ h]
  · have hd : sd.data ≠ [] := fun e => hsd (String.ext e)
    simp [joinBuf, hsd, hd, cleanChars_dir_flat _ _ hd h]

theorem Split_Join_flat (sd name : String) (h : Flat name.data) :
    Split (Join [sd, name]) = (String.mk (dirPart sd.data), name) := by
  simp only [Split, Join_flat sd name h,
    splitSlash_getLast _ _ h.2.1 (dirPart_shape sd.data), Option.getD_some]
  simp

theorem Join_flat_inj (sd a b : String) (ha : Flat a.data) (hb : Flat b.data)
    (h : Join [sd, a] = Join [sd, b]) : a = b := by
  have := congrArg String.data h
  rw [Join_flat sd a ha, Join_flat sd b hb] at this
  exact String.ext (List.append_cancel_left this)

end path

theorem slash_not_mem_hextable : '/' ∉ hex.hextable := by decide

theorem fileName_length (j : Bytes) : (fileName j).length = 68 := by
  simp [String.length, fileName_data, hex.encode_length, sha256.Sum256_length]

theorem fileName_flat (j : Bytes) : path.Flat (fileName j).data := by
  have hl : (fileName j).data.length = 68 := fileName_length j
  refine ⟨?_, ?_, ?_, ?_⟩
  · intro e; rw [e] at hl; simp at hl
  · rw [fileName_data]
    intro hm
    rcases List.mem_append.mp hm with h1 | h2
    · exact slash_not_mem_hextable (hex.encode_mem _ _ h1)
    · revert h2; decide
  · intro e; rw [e] at hl; simp at hl
  · intro e; rw [e] at hl; simp at hl

namespace path

theorem splitSlash_noSlash_mem (p : List Char) : ∀ c ∈ splitSlash p, '/' ∉ c := by
  induction p with
  | nil => intro c hc; simp [splitSlash] at hc; simp [hc]
  | cons x xs ih =>
    intro c hc
    simp only [splitSlash] at hc
    split at hc
    · rcases List.mem_cons.mp hc with rfl | h
      · simp
      · exact ih c h
    · rename_i hx
      cases hs : splitSlash xs with
      | nil => exact absurd hs (splitSlash_ne_nil xs)
      | cons y ys =>
        rw [hs] at hc ih
        simp only [consHead, List.mem_cons] at hc
        rcases hc with rfl | h
        · intro hm
          rcases List.mem_cons.mp hm with h1 | h1
          · exact hx h1.symm
          · exact ih y (List.mem_cons_self _ _) h1
        · exact ih c (List.mem_cons_of_mem _ h)

theorem cleanStep_kept (rooted : Bool) (st : List (List Char)) (c : List Char)
    (hst : ∀ x ∈ st, Kept x) (hc : '/' ∉ c) : ∀ x ∈ cleanStep rooted st c, Kept x := by
  unfold cleanStep
  split
  · exact hst
  · rename_i h1
    simp only [not_or] at h1
    split
    · split
      · split
        · intro x hx; simp at hx
        · intro x hx
          simp only [List.mem_singleton] at hx
          subst hx
          exact ⟨h1.1, h1.2, hc⟩
      · rename_i top rest
        split
        · split
          · exact hst
          · intro x hx
            rcases List.mem_cons.mp hx with rfl | h
            · exact ⟨h1.1, h1.2, hc⟩
            · exact hst x h
        · intro x hx; exact hst x (List.mem_cons_of_mem _ hx)
    · intro x hx
      rcases List.mem_cons.mp hx with rfl | h
      · exact ⟨h1.1, h1.2, hc⟩
      · exact hst x h

theorem foldl_cleanStep_kept (rooted : Bool) (cs : List (List Char)) (st : List (List Char))
    (hst : ∀ x ∈ st, Kept x) (hcs : ∀ c ∈ cs, '/' ∉ c) :
    ∀ x ∈ cs.foldl (cleanStep rooted) st, Kept x := by
  induction cs generalizing st with
  | nil => exact hst
  | cons c cs ih =>
    simp only [List.foldl_cons]
    apply ih
    · exact cleanStep_kept rooted st c hst (hcs c (List.mem_cons_self _ _))
    · intro x hx; exact hcs x (List.mem_cons_of_mem _ hx)

theorem cleanStack_kept (p : List Char) : ∀ x ∈ cleanStack p, Kept x :=
  foldl_cleanStep_kept _ _ [] (by simp) (splitSlash_noSlash_mem p)

theorem joinSlash_kept (l : List (List Char)) (hl : l ≠ []) (hk : ∀ x ∈ l, Kept x) :
    joinSlash l ≠ [] ∧ joinSlash l ≠ ['.'] ∧ joinSlash l ≠ ['/'] := by
  cases l with
  | nil => exact absurd rfl hl
  | cons x xs =>
    obtain ⟨h1, h2, h3⟩ := hk x (List.mem_cons_self _ _)
    cases xs with
    | nil =>
      simp only [joinSlash]
      refine ⟨h1, h2, ?_⟩
      intro e; rw [e] at h3; simp at h3
    | cons y ys =>
      simp only [joinSlash]
      cases x with
      | nil => exact absurd rfl h1
      | cons a as => simp

theorem asDir_eq (sd : String) : asDir sd = String.mk (dirPart sd.data) := by
  have hdot : ∀ l : List Char, (String.mk l = ".") ↔ l = ['.'] := by
    intro l; constructor
    · intro h; exact congrArg String.data h
    · intro h; rw [h]
  have hsl : ∀ l : List Char, (String.mk l = "/") ↔ l = ['/'] := by
    intro l; constructor
    · intro h; exact congrArg String.data h
    · intro h; rw [h]
  unfold asDir Clean dirPart cleanChars
  simp only [hdot, hsl]
  by_cases ha : sd.data = []
  · simp [ha]
  · simp only [ha, if_false]
    by_cases he : cleanStack sd.data = []
    · by_cases hr : sd.data.head? = some '/'
      · simp [he, hr, joinSlash]
      · simp [he, hr, joinSlash]
    · have hrev : (cleanStack sd.data).reverse ≠ [] := by simpa using he
      have hk := joinSlash_kept _ hrev
        (fun x hx => cleanStack_kept sd.data x (List.mem_reverse.mp hx))
      obtain ⟨k1, k2, k3⟩ := hk
      by_cases hr : sd.data.head? = some '/'
      · simp only [hr, if_true, he, if_false, List.singleton_append, List.cons_ne_nil]
        have n1 : ¬ ('/' :: joinSlash (cleanStack sd.data).reverse = ['.']) := by simp
        have n2 : ¬ ('/' :: joinSlash (cleanStack sd.data).reverse = ['/']) := by simp [k1]
        simp only [n1, n2, if_false]
        apply String.ext
        simp [String.data_append]
      · simp only [hr, if_false, he, List.nil_append, k1, k2, k3]
        apply String.ext
        simp [String.data_append]

end path

theorem WriteFile_ok (fault : WriteFault) (fs : FS) (name : String) (data : Bytes) (perm : Nat)
    (h : (os.WriteFile fault fs name data perm).1 = Option.none) :
    os.WriteFile fault fs name data perm = (Option.none, fs.write name data) := by
  cases fault <;> simp [os.WriteFile] at h ⊢

theorem fileName_eq (j : Bytes) :
    hex.EncodeToString (sha256.Sum256 j) ++ ".jpg" = fileName j := rfl

theorem Error_body (error : String) (code : Nat) :
    (http.Error ResponseWriter.fresh error code).body = error ++ "\n" := by
  simp [http.Error, Fprintln, ResponseWriter.Write, ResponseWriter.WriteHeader,
    ResponseWriter.HeaderSet, ResponseWriter.HeaderDel, ResponseWriter.fresh]

/-- The outcome of an upload whose every step succeeds. -/
theorem upload_ok {Image : Type} (cfg : Config) (lib : Codec Image) (fault : WriteFault)
    (r : Request) (fs : FS) (file : MultipartFile) (data j : Bytes)
    (hm : r.Method = "POST") (hf : r.FormFile "image" = .ok file)
    (hr : file.content = .ok data) (hc : ConvertPPMToJPEG lib data = .ok j)
    (hw : (os.WriteFile fault fs (path.Join [cfg.storageDir, fileName j]) j 0o750).1
      = Option.none) :
    upload cfg lib fault r fs =
      (Fprintln (ResponseWriter.fresh.HeaderSet "Content-Type" "text/plain")
        (cfg.baseURL ++ "/files/" ++ hex.EncodeToString (sha256.Sum256 j) ++ ".jpg"),
       fs.write (path.Join [cfg.storageDir, fileName j]) j) := by
  have hw2 := WriteFile_ok _ _ _ _ _ hw
  simp only [upload, uploadHandler, hm, hf, hr, hc, fileName_eq, hw2]
  simp

/-- The outcome of an upload whose conversion succeeds and whose write fails. -/
theorem upload_write_error {Image : Type} (cfg : Config) (lib : Codec Image)
    (fault : WriteFault) (r : Request) (fs : FS) (file : MultipartFile) (data j : Bytes)
    (e : String)
    (hm : r.Method = "POST") (hf : r.FormFile "image" = .ok file)
    (hr : file.content = .ok data) (hc : ConvertPPMToJPEG lib data = .ok j)
    (hw : (os.WriteFile fault fs (path.Join [cfg.storageDir, fileName j]) j 0o750).1
      = some e) :
    upload cfg lib fault r fs =
      (http.Error ResponseWriter.fresh ("Error storing the JPEG: " ++ e) 500,
       (os.WriteFile fault fs (path.Join [cfg.storageDir, fileName j]) j 0o750).2) := by
  simp only [upload, uploadHandler, hm, fileName_eq, hf, hr, hc]
  revert hw
  generalize os.WriteFile fault fs (path.Join [cfg.storageDir, fileName j]) j 0o750 = res
  rcases res with ⟨_ | e', fs1⟩
  · intro h; simp at h
  · intro h; simp at h; subst h; simp

theorem path.cleanChars_slash_slash_flat (n : List Char) (h : path.Flat n) :
    path.cleanChars ('/' :: '/' :: n) = '/' :: n := by
  have hs := h.2.1
  have h0 : path.cleanStep true [] [] = [] := by simp [path.cleanStep]
  simp [path.cleanChars, path.cleanStack, path.splitSlash, path.splitSlash_noSlash n hs, h0,
    path.cleanStep_flat _ _ _ h, path.joinSlash]

theorem path.dirPart_dot : path.dirPart ['.'] = [] := by decide

theorem path.Clean_slash_flat (name : String) (h : path.Flat name.data) :
    path.Clean ("/" ++ name) = "/" ++ name := by
  apply String.ext
  simp only [path.Clean, String.data_append]
  exact path.cleanChars_slash_flat _ h

/-- The file server resolves a plain name to the path `path.Join` gives it under the
storage directory. -/
theorem dirPath_flat (sd name : String) (h : path.Flat name.data) :
    http.dirPath sd (path.Clean ("/" ++ name)) = path.Join [sd, name] := by
  have hne : name ≠ "" := by
    intro e; rw [e] at h; exact h.1 rfl
  have h1 : (path.Clean ("/" ++ path.Clean ("/" ++ name))).data = '/' :: name.data := by
    rw [path.Clean_slash_flat name h]
    simp only [path.Clean, String.data_append]
    exact path.cleanChars_slash_slash_flat _ h
  have h2 : String.mk ((path.Clean ("/" ++ path.Clean ("/" ++ name))).data.drop 1) = name := by
    rw [h1]; rfl
  simp only [http.dirPath, h2, hne, if_false]
  by_cases hsd : sd = ""
  · subst hsd
    apply String.ext
    simp only [if_true]
    rw [path.Join_flat _ _ h, path.Join_flat _ _ h]
    show path.dirPart ['.'] ++ name.data = path.dirPart [] ++ name.data
    rw [path.dirPart_dot]; rfl
  · simp [hsd]

theorem trimPrefix_append (pre s : String) : trimPrefix (pre ++ s) pre = s := by
  have : hasPrefix (pre ++ s) pre = true := by
    simp [hasPrefix, String.data_append]
  simp [trimPrefix, this, String.data_append]

theorem hasPrefix_slash_flat (name : String) (h : path.Flat name.data) :
    hasPrefix name "/" = false := by
  have hs := h.2.1
  cases hd : name.data with
  | nil => simp [hasPrefix, hd]
  | cons c cs =>
    rw [hd] at hs
    simp only [List.mem_cons, not_or] at hs
    have : ("/" : String).data = ['/'] := rfl
    simp [hasPrefix, hd, this, List.isPrefixOf]
    exact fun e => hs.1 e

theorem slash_fileName_getLast (j : Bytes) :
    ("/" ++ fileName j).data.getLast? = some 'g' := by
  have h2 : ("/" ++ fileName j).data
      = ("/".data ++ hex.encode (sha256.Sum256 j) ++ ['.', 'j', 'p']) ++ ['g'] := by
    simp [String.data_append, fileName_data]
  rw [h2, List.getLast?_concat]

theorem hasSuffix_index (j : Bytes) : hasSuffix ("/" ++ fileName j) "/index.html" = false := by
  have h1 : ("/index.html" : String).data = "/index.htm".data ++ ['l'] := rfl
  rw [hasSuffix, Bool.eq_false_iff]
  intro hs
  rw [List.isSuffixOf_iff_suffix, h1] at hs
  obtain ⟨t, ht⟩ := hs
  have h3 := congrArg List.getLast? ht
  rw [← List.append_assoc, List.getLast?_concat, slash_fileName_getLast] at h3
  revert h3
  decide

/-- What the file handler answers for the file of a completed upload. -/
theorem filesHandler_stored (cfg : Config) (fs : FS) (g : Request) (j : Bytes)
    (hg : g.Method = "GET") (hp : g.Path = "/files/" ++ fileName j)
    (hfs : fs (path.Join [cfg.storageDir, fileName j]) = some j) :
    filesHandler cfg fs g = Served.content 200 j := by
  have hflat := fileName_flat j
  have hpre : ("/files/" : String) ≠ "" := by decide
  have hlen : (fileName j).length < ("/files/" ++ fileName j).length := by
    rw [String.length_append]
    have : ("/files/" : String).length = 7 := by decide
    omega
  have hlast : ("/" ++ fileName j).data.getLast? ≠ some '/' := by
    rw [slash_fileName_getLast]; decide
  have hhead : g.Method ≠ "HEAD" := by rw [hg]; decide
  unfold filesHandler http.stripPrefixHandler
  rw [if_neg hpre]
  simp only [hp, trimPrefix_append]
  rw [if_pos hlen]
  unfold http.FileServer
  simp only [hasPrefix_slash_flat _ hflat, Bool.false_eq_true, if_false]
  unfold http.serveFile
  simp only [hasSuffix_index, Bool.false_eq_true, if_false, http.dirOpen,
    dirPath_flat _ _ hflat, hfs]
  rw [if_neg hlast, if_neg hhead]

theorem infix_skip_left {α : Type} (c : α) (x pre rest : List α) (hc : c ∉ pre)
    (h : c :: x <:+: pre ++ rest) : c :: x <:+: rest := by
  induction pre with
  | nil => simpa using h
  | cons p ps ih =>
    simp only [List.mem_cons, not_or] at hc
    rw [List.cons_append, List.infix_cons_iff] at h
    rcases h with h | h
    · rw [List.cons_prefix_cons] at h
      exact absurd h.1 hc.1
    · exact ih hc.2 h

theorem infix_skip_right {α : Type} (d : α) (x rest : List α) (hx : x ≠ []) (hd : d ∉ x)
    (h : x <:+: rest ++ [d]) : x <:+: rest := by
  rw [List.infix_concat_iff] at h
  rcases h with h | h
  · rw [List.suffix_concat_iff] at h
    rcases h with h | ⟨t, rfl, _⟩
    · exact absurd h hx
    · exact absurd (by simp) hd
  · exact h

/-- The part of the retrieval URL after the base URL. -/
theorem url_tail_not_in_error (base e : String) (j : Bytes)
    (he : ¬ Contains e ("/files/" ++ fileName j)) :
    ¬ Contains ("Error storing the JPEG: " ++ e ++ "\n")
      (base ++ "/files/" ++ hex.EncodeToString (sha256.Sum256 j) ++ ".jpg") := by
  intro hc
  apply he
  have hS : ("/files/" ++ fileName j).data = '/' :: ("files/".data ++ (fileName j).data) := by
    rw [String.data_append]; rfl
  have hurl : (base ++ "/files/" ++ hex.EncodeToString (sha256.Sum256 j) ++ ".jpg").data
      = base.data ++ ("/files/" ++ fileName j).data := by
    simp [String.data_append, fileName_data, hex.EncodeToString]
  have hbody : ("Error storing the JPEG: " ++ e ++ "\n").data
      = "Error storing the JPEG: ".data ++ (e.data ++ ['\n']) := by
    simp [String.data_append]
  unfold Contains at hc ⊢
  rw [hurl, hbody] at hc
  have h1 : ("/files/" ++ fileName j).data <:+: "Error storing the JPEG: ".data ++ (e.data ++ ['\n']) :=
    List.IsInfix.trans (List.suffix_append _ _).isInfix hc
  rw [hS] at h1 ⊢
  have h2 := infix_skip_left '/' _ _ _ (by decide) h1
  refine infix_skip_right '\n' _ _ (by simp) ?_ h2
  have hnl : '\n' ∉ (fileName j).data := by
    rw [fileName_data]
    intro hm
    rcases List.mem_append.mp hm with h | h
    · exact absurd (hex.encode_mem _ _ h) (by decide)
    · revert h; decide
  intro hm
  rcases List.mem_cons.mp hm with h | h
  · revert h; decide
  · rcases List.mem_append.mp h with h | h
    · revert h; decide
    · exact hnl h

theorem FS.write_write (fs : FS) (p : String) (d : Bytes) :
    (fs.write p d).write p d = fs.write p d := by
  funext q
  simp only [FS.write]
  split <;> rfl

theorem FS.write_same (fs : FS) (p : String) (d : Bytes) : fs.write p d p = some d := by
  simp [FS.write]

theorem FS.write_other (fs : FS) (p q : String) (d : Bytes) (h : q ≠ p) :
    fs.write p d q = fs q := by
  simp [FS.write, h]

/-- What an upload can do to the file system when its write is all or nothing. -/
theorem upload_fs_cases {Image : Type} (cfg : Config) (lib : Codec Image) (fault : WriteFault)
    (r : Request) (fs : FS) (hfault : fault.allOrNothing) :
    (upload cfg lib fault r fs).2 = fs ∨
      ∃ j, (upload cfg lib fault r fs).2 = fs.write (path.Join [cfg.storageDir, fileName j]) j := by
  unfold upload uploadHandler
  split
  · exact Or.inl rfl
  · split
    · exact Or.inl rfl
    · split
      · exact Or.inl rfl
      · split
        · exact Or.inl rfl
        · rename_i jpegData _
          cases fault with
          | none => exact Or.inr ⟨jpegData, rfl⟩
          | openFails e => exact Or.inl rfl
          | writeFails n e => exact absurd hfault id

theorem StoredInvariant_write (cfg : Config) (fs : FS) (j : Bytes)
    (h : StoredInvariant cfg fs) :
    StoredInvariant cfg (fs.write (path.Join [cfg.storageDir, fileName j]) j) := by
  intro name c hflat hc
  simp only [FS.write] at hc
  split at hc
  · rename_i heq
    have hn := path.Join_flat_inj _ _ _ hflat (fileName_flat j) heq
    simp only [Option.some.injEq] at hc
    rw [hn, hc]
  · exact h name c hflat hc

theorem StoredInvariant_empty (cfg : Config) : StoredInvariant cfg emptyFS := by
  intro name c _ hc
  simp [emptyFS] at hc

/-! ## The claims -/

/-- C1. A POST request whose `image` field is read in full, whose bytes `ConvertPPMToJPEG`
turns into the JPEG bytes `j`, and whose file write succeeds, is answered with status 200,
the header `Content-Type: text/plain`, and the body
`baseURL ++ "/files/" ++ hex(SHA-256(j)) ++ ".jpg" ++ "\n"`: the digest is that of the
encoded bytes `j`, not of the uploaded bytes `data`. -/
theorem upload_success_response {Image : Type} (cfg : Config) (lib : Codec Image)
    (fault : WriteFault) (r : Request) (fs : FS) (file : MultipartFile) (data j : Bytes)
    (hm : r.Method = "POST") (hf : r.FormFile "image" = .ok file)
    (hr : file.content = .ok data) (hc : ConvertPPMToJPEG lib data = .ok j)
    (hw : (os.WriteFile fault fs (path.Join [cfg.storageDir, fileName j]) j 0o750).1
      = Option.none) :
    (upload cfg lib fault r fs).1.status = some 200 ∧
    (upload cfg lib fault r fs).1.HeaderGet "Content-Type" = some "text/plain" ∧
    (upload cfg lib fault r fs).1.body =
      cfg.baseURL ++ "/files/" ++ hex.EncodeToString (sha256.Sum256 j) ++ ".jpg" ++ "\n" := by
  rw [upload_ok cfg lib fault r fs file data j hm hf hr hc hw]
  refine ⟨rfl, rfl, ?_⟩
  simp [Fprintln, ResponseWriter.Write, ResponseWriter.WriteHeader, ResponseWriter.HeaderSet,
    ResponseWriter.fresh]

/-- C1 at a concrete input: the default configuration, a 1x1 plain PPM image, an empty
file system. -/
theorem upload_success_response_witness :
    (upload Config.default sampleCodec WriteFault.none (sampleRequest samplePPM) emptyFS).1.status
      = some 200 ∧
    (upload Config.default sampleCodec WriteFault.none (sampleRequest samplePPM)
      emptyFS).1.HeaderGet "Content-Type" = some "text/plain" ∧
    (upload Config.default sampleCodec WriteFault.none (sampleRequest samplePPM) emptyFS).1.body =
      "http://localhost:8080" ++ "/files/" ++ hex.EncodeToString (sha256.Sum256 sampleJPEG)
        ++ ".jpg" ++ "\n" :=
  upload_success_response Config.default sampleCodec WriteFault.none (sampleRequest samplePPM)
    emptyFS { content := .ok samplePPM } samplePPM sampleJPEG rfl rfl rfl rfl rfl

/-- C2, amended. From a storage state in which every file directly under the storage
directory is named `hex(SHA-256(contents)) ++ ".jpg"`, any sequence of upload requests
whose writes each go through in full or fail before the file is opened leaves a state
with the same property. -/
theorem stored_invariant_preserved {Image : Type} (cfg : Config) (lib : Codec Image)
    (reqs : List (WriteFault × Request)) (fs : FS)
    (hfault : ∀ fr ∈ reqs, fr.1.allOrNothing) (hinv : StoredInvariant cfg fs) :
    StoredInvariant cfg (uploads cfg lib reqs fs) := by
  induction reqs generalizing fs with
  | nil => exact hinv
  | cons fr rest ih =>
    obtain ⟨fault, r⟩ := fr
    simp only [uploads]
    apply ih
    · intro x hx; exact hfault x (List.mem_cons_of_mem _ hx)
    · have hf : fault.allOrNothing := hfault (fault, r) (List.mem_cons_self _ _)
      rcases upload_fs_cases cfg lib fault r fs hf with h | ⟨j, h⟩
      · rw [h]; exact hinv
      · rw [h]; exact StoredInvariant_write cfg fs j hinv

/-- C2, amended, at a concrete input: a successful upload followed by one whose write
fails at open, from the empty file system. -/
theorem stored_invariant_preserved_witness :
    StoredInvariant Config.default
      (uploads Config.default sampleCodec
        [(WriteFault.none, sampleRequest samplePPM),
         (WriteFault.openFails "permission denied", sampleRequest samplePPMOneLine)] emptyFS) :=
  stored_invariant_preserved Config.default sampleCodec
    [(WriteFault.none, sampleRequest samplePPM),
     (WriteFault.openFails "permission denied", sampleRequest samplePPMOneLine)] emptyFS
    (by intro fr hfr
        simp only [List.mem_cons, List.mem_singleton, List.not_mem_nil, or_false] at hfr
        rcases hfr with rfl | rfl <;> exact trivial)
    (StoredInvariant_empty Config.default)

/-- C2 as stated fails: the empty file system satisfies the invariant, and one upload whose
write fails after the file was created (no byte written, "no space left on device")
leaves an empty file under the digest name of the full JPEG bytes, which is not the
digest name of the empty contents. -/
theorem stored_invariant_broken_by_partial_write :
    StoredInvariant Config.default emptyFS ∧
    uploads Config.default sampleCodec
        [(WriteFault.writeFails 0 "no space left on device", sampleRequest samplePPM)] emptyFS
        "storage/29192008165422219eefdac1b390b313786dbe7c97d8993ac44b2ddff56f5b70.jpg"
      = some [] ∧
    fileName []
      = "e3b0c44298fc1c149afbf4c8996fb92427ae41e4649b934ca495991b7852b855.jpg" ∧
    ¬ StoredInvariant Config.default
      (uploads Config.default sampleCodec
        [(WriteFault.writeFails 0 "no space left on device", sampleRequest samplePPM)] emptyFS) := by
  refine ⟨StoredInvariant_empty _, by decide, by decide, ?_⟩
  intro h
  have h1 := h (fileName sampleJPEG) [] (fileName_flat sampleJPEG) (by decide)
  revert h1
  decide

/-- C3. A request whose method is not `POST` is answered with status 405, whatever its
form holds; the outcome is the `http.Error` reply and the untouched file system, so it does
not depend on the conversion, and nothing is written. -/
theorem upload_method_not_allowed {Image : Type} (cfg : Config) (lib : Codec Image)
    (fault : WriteFault) (r : Request) (fs : FS) (hm : r.Method ≠ "POST") :
    upload cfg lib fault r fs = (http.Error ResponseWriter.fresh "Invalid request method" 405, fs) ∧
    (upload cfg lib fault r fs).1.status = some 405 ∧
    (upload cfg lib fault r fs).2 = fs := by
  have h : upload cfg lib fault r fs
      = (http.Error ResponseWriter.fresh "Invalid request method" 405, fs) := by
    simp [upload, uploadHandler, hm]
  rw [h]
  exact ⟨rfl, rfl, rfl⟩

/-- C3 at a concrete input: a GET request that carries a valid `image` field. -/
theorem upload_method_not_allowed_witness :
    upload Config.default sampleCodec WriteFault.none
        { sampleRequest samplePPM with Method := "GET" } emptyFS
      = (http.Error ResponseWriter.fresh "Invalid request method" 405, emptyFS) ∧
    (upload Config.default sampleCodec WriteFault.none
        { sampleRequest samplePPM with Method := "GET" } emptyFS).1.status = some 405 ∧
    (upload Config.default sampleCodec WriteFault.none
        { sampleRequest samplePPM with Method := "GET" } emptyFS).2 = emptyFS :=
  upload_method_not_allowed Config.default sampleCodec WriteFault.none
    { sampleRequest samplePPM with Method := "GET" } emptyFS (by decide)

/-- C4. A POST request for which `r.FormFile("image")` fails (the field is absent or
cannot be opened) is answered with status 400 and the file system is unchanged. -/
theorem upload_missing_image {Image : Type} (cfg : Config) (lib : Codec Image)
    (fault : WriteFault) (r : Request) (fs : FS) (e : String)
    (hm : r.Method = "POST") (hf : r.FormFile "image" = .error e) :
    (upload cfg lib fault r fs).1.status = some 400 ∧
    (upload cfg lib fault r fs).2 = fs := by
  have h : upload cfg lib fault r fs
      = (http.Error ResponseWriter.fresh "Error reading file" 400, fs) := by
    simp [upload, uploadHandler, hm, hf]
  rw [h]
  exact ⟨rfl, rfl⟩

/-- C4 at a concrete input: a POST request without any form file. -/
theorem upload_missing_image_witness :
    (upload Config.default sampleCodec WriteFault.none
      { Method := "POST", Path := "/upload", FormFile := fun _ => .error "http: no such file" }
      emptyFS).1.status = some 400 ∧
    (upload Config.default sampleCodec WriteFault.none
      { Method := "POST", Path := "/upload", FormFile := fun _ => .error "http: no such file" }
      emptyFS).2 = emptyFS :=
  upload_missing_image Config.default sampleCodec WriteFault.none
    { Method := "POST", Path := "/upload", FormFile := fun _ => .error "http: no such file" }
    emptyFS "http: no such file" rfl rfl

/-- C5. A POST request whose `image` bytes make `ConvertPPMToJPEG` fail with error `e` is
answered with status 500 and the body `"Error converting to JPEG: " ++ e ++ "\n"`, which
contains the text of `e`; the file system is unchanged. -/
theorem upload_conversion_error {Image : Type} (cfg : Config) (lib : Codec Image)
    (fault : WriteFault) (r : Request) (fs : FS) (file : MultipartFile) (data : Bytes)
    (e : String)
    (hm : r.Method = "POST") (hf : r.FormFile "image" = .ok file)
    (hr : file.content = .ok data) (hc : ConvertPPMToJPEG lib data = .error e) :
    (upload cfg lib fault r fs).1.status = some 500 ∧
    (upload cfg lib fault r fs).1.body = "Error converting to JPEG: " ++ e ++ "\n" ∧
    Contains (upload cfg lib fault r fs).1.body e ∧
    (upload cfg lib fault r fs).2 = fs := by
  have h : upload cfg lib fault r fs
      = (http.Error ResponseWriter.fresh ("Error converting to JPEG: " ++ e) 500, fs) := by
    simp [upload, uploadHandler, hm, hf, hr, hc]
  rw [h]
  refine ⟨rfl, Error_body _ _, ?_, rfl⟩
  simp only [Error_body, Contains, String.data_append]
  exact ⟨"Error converting to JPEG: ".data, "\n".data, rfl⟩

/-- C5 at a concrete input: bytes that are no bitmap. -/
theorem upload_conversion_error_witness :
    (upload Config.default sampleCodec WriteFault.none (sampleRequest (bytesOf "hello"))
      emptyFS).1.status = some 500 ∧
    (upload Config.default sampleCodec WriteFault.none (sampleRequest (bytesOf "hello"))
      emptyFS).1.body = "Error converting to JPEG: " ++ "netpbm: invalid magic number" ++ "\n" ∧
    Contains (upload Config.default sampleCodec WriteFault.none (sampleRequest (bytesOf "hello"))
      emptyFS).1.body "netpbm: invalid magic number" ∧
    (upload Config.default sampleCodec WriteFault.none (sampleRequest (bytesOf "hello"))
      emptyFS).2 = emptyFS :=
  upload_conversion_error Config.default sampleCodec WriteFault.none
    (sampleRequest (bytesOf "hello")) emptyFS { content := .ok (bytesOf "hello") }
    (bytesOf "hello") "netpbm: invalid magic number" rfl rfl rfl rfl

/-- C6. When two requests carry the same bytes, the conversion succeeds and both writes
succeed, the second upload gives the same response (hence the same URL) as the first and
leaves the file system exactly as the first left it. -/
theorem reupload_idempotent {Image : Type} (cfg : Config) (lib : Codec Image)
    (f1 f2 : WriteFault) (r1 r2 : Request) (fs : FS) (file1 file2 : MultipartFile)
    (data j : Bytes)
    (hm1 : r1.Method = "POST") (hf1 : r1.FormFile "image" = .ok file1)
    (hr1 : file1.content = .ok data)
    (hm2 : r2.Method = "POST") (hf2 : r2.FormFile "image" = .ok file2)
    (hr2 : file2.content = .ok data)
    (hc : ConvertPPMToJPEG lib data = .ok j)
    (hw1 : (os.WriteFile f1 fs (path.Join [cfg.storageDir, fileName j]) j 0o750).1
      = Option.none)
    (hw2 : (os.WriteFile f2 (upload cfg lib f1 r1 fs).2
      (path.Join [cfg.storageDir, fileName j]) j 0o750).1 = Option.none) :
    (upload cfg lib f2 r2 (upload cfg lib f1 r1 fs).2).1.body = (upload cfg lib f1 r1 fs).1.body ∧
    (upload cfg lib f2 r2 (upload cfg lib f1 r1 fs).2).1 = (upload cfg lib f1 r1 fs).1 ∧
    (upload cfg lib f2 r2 (upload cfg lib f1 r1 fs).2).2 = (upload cfg lib f1 r1 fs).2 := by
  have e2 := upload_ok cfg lib f2 r2 (upload cfg lib f1 r1 fs).2 file2 data j hm2 hf2 hr2 hc hw2
  have e1 := upload_ok cfg lib f1 r1 fs file1 data j hm1 hf1 hr1 hc hw1
  rw [e2, e1]
  exact ⟨rfl, rfl, FS.write_write _ _ _⟩

/-- C6 at a concrete input: the same image uploaded twice to an empty file system. -/
theorem reupload_idempotent_witness :
    (upload Config.default sampleCodec WriteFault.none (sampleRequest samplePPM)
      (upload Config.default sampleCodec WriteFault.none (sampleRequest samplePPM)
        emptyFS).2).1.body
      = (upload Config.default sampleCodec WriteFault.none (sampleRequest samplePPM)
        emptyFS).1.body ∧
    (upload Config.default sampleCodec WriteFault.none (sampleRequest samplePPM)
      (upload Config.default sampleCodec WriteFault.none (sampleRequest samplePPM) emptyFS).2).1
      = (upload Config.default sampleCodec WriteFault.none (sampleRequest samplePPM) emptyFS).1 ∧
    (upload Config.default sampleCodec WriteFault.none (sampleRequest samplePPM)
      (upload Config.default sampleCodec WriteFault.none (sampleRequest samplePPM) emptyFS).2).2
      = (upload Config.default sampleCodec WriteFault.none (sampleRequest samplePPM) emptyFS).2 :=
  reupload_idempotent Config.default sampleCodec WriteFault.none WriteFault.none
    (sampleRequest samplePPM) (sampleRequest samplePPM) emptyFS
    { content := .ok samplePPM } { content := .ok samplePPM } samplePPM sampleJPEG
    rfl rfl rfl rfl rfl rfl rfl rfl rfl

/-- C7. After a successful upload the response body is
`baseURL ++ "/files/" ++ name ++ "\n"`; the path the file server opens for the URL path
`/files/name`, once the prefix `/files/` is stripped, is the path the upload wrote; and a
GET for `/files/name` on the resulting file system is answered with status 200 and
exactly the stored JPEG bytes. -/
theorem upload_then_get {Image : Type} (cfg : Config) (lib : Codec Image)
    (fault : WriteFault) (r : Request) (fs : FS) (file : MultipartFile) (data j : Bytes)
    (g : Request)
    (hm : r.Method = "POST") (hf : r.FormFile "image" = .ok file)
    (hr : file.content = .ok data) (hc : ConvertPPMToJPEG lib data = .ok j)
    (hw : (os.WriteFile fault fs (path.Join [cfg.storageDir, fileName j]) j 0o750).1
      = Option.none)
    (hg : g.Method = "GET") (hp : g.Path = "/files/" ++ fileName j) :
    (upload cfg lib fault r fs).1.body = cfg.baseURL ++ "/files/" ++ fileName j ++ "\n" ∧
    (upload cfg lib fault r fs).2 = fs.write (path.Join [cfg.storageDir, fileName j]) j ∧
    http.dirPath cfg.storageDir (path.Clean ("/" ++ trimPrefix g.Path "/files/"))
      = path.Join [cfg.storageDir, fileName j] ∧
    filesHandler cfg (upload cfg lib fault r fs).2 g = Served.content 200 j := by
  have hok := upload_ok cfg lib fault r fs file data j hm hf hr hc hw
  refine ⟨?_, ?_, ?_, ?_⟩
  · rw [hok]
    simp [Fprintln, ResponseWriter.Write, ResponseWriter.WriteHeader, ResponseWriter.HeaderSet,
      ResponseWriter.fresh, fileName, String.append_assoc]
  · rw [hok]
  · rw [hp, trimPrefix_append]
    exact dirPath_flat _ _ (fileName_flat j)
  · rw [hok]
    exact filesHandler_stored cfg _ g j hg hp (FS.write_same _ _ _)

/-- C7 at a concrete input: upload to an empty file system, then GET. -/
theorem upload_then_get_witness :
    (upload Config.default sampleCodec WriteFault.none (sampleRequest samplePPM) emptyFS).1.body
      = "http://localhost:8080" ++ "/files/" ++ fileName sampleJPEG ++ "\n" ∧
    (upload Config.default sampleCodec WriteFault.none (sampleRequest samplePPM) emptyFS).2
      = emptyFS.write (path.Join ["storage", fileName sampleJPEG]) sampleJPEG ∧
    http.dirPath "storage"
        (path.Clean ("/" ++ trimPrefix (getRequest ("/files/" ++ fileName sampleJPEG)).Path "/files/"))
      = path.Join ["storage", fileName sampleJPEG] ∧
    filesHandler Config.default
        (upload Config.default sampleCodec WriteFault.none (sampleRequest samplePPM) emptyFS).2
        (getRequest ("/files/" ++ fileName sampleJPEG))
      = Served.content 200 sampleJPEG :=
  upload_then_get Config.default sampleCodec WriteFault.none (sampleRequest samplePPM) emptyFS
    { content := .ok samplePPM } samplePPM sampleJPEG
    (getRequest ("/files/" ++ fileName sampleJPEG)) rfl rfl rfl rfl rfl rfl rfl

/-- C8, amended. Two successful uploads whose encoded JPEG bytes have different SHA-256
digests write files of different names and different paths, and the second leaves the
file at the path of the first as it found it. -/
theorem distinct_digests_distinct_files {Image : Type} (cfg : Config) (lib : Codec Image)
    (f1 f2 : WriteFault) (r1 r2 : Request) (fs1 fs2 : FS) (file1 file2 : MultipartFile)
    (d1 d2 j1 j2 : Bytes)
    (hm1 : r1.Method = "POST") (hf1 : r1.FormFile "image" = .ok file1)
    (hr1 : file1.content = .ok d1) (hc1 : ConvertPPMToJPEG lib d1 = .ok j1)
    (hw1 : (os.WriteFile f1 fs1 (path.Join [cfg.storageDir, fileName j1]) j1 0o750).1
      = Option.none)
    (hm2 : r2.Method = "POST") (hf2 : r2.FormFile "image" = .ok file2)
    (hr2 : file2.content = .ok d2) (hc2 : ConvertPPMToJPEG lib d2 = .ok j2)
    (hw2 : (os.WriteFile f2 fs2 (path.Join [cfg.storageDir, fileName j2]) j2 0o750).1
      = Option.none)
    (hd : sha256.Sum256 j1 ≠ sha256.Sum256 j2) :
    (upload cfg lib f1 r1 fs1).2 = fs1.write (path.Join [cfg.storageDir, fileName j1]) j1 ∧
    (upload cfg lib f2 r2 fs2).2 = fs2.write (path.Join [cfg.storageDir, fileName j2]) j2 ∧
    fileName j1 ≠ fileName j2 ∧
    path.Join [cfg.storageDir, fileName j1] ≠ path.Join [cfg.storageDir, fileName j2] ∧
    (upload cfg lib f2 r2 fs2).2 (path.Join [cfg.storageDir, fileName j1])
      = fs2 (path.Join [cfg.storageDir, fileName j1]) := by
  have hn : fileName j1 ≠ fileName j2 := by
    intro e
    have e1 := congrArg String.data e
    rw [fileName_data, fileName_data] at e1
    exact hd (hex.encode_inj _ _ (List.append_cancel_right e1))
  have hp : path.Join [cfg.storageDir, fileName j1] ≠ path.Join [cfg.storageDir, fileName j2] :=
    fun e => hn (path.Join_flat_inj _ _ _ (fileName_flat j1) (fileName_flat j2) e)
  have h1 := upload_ok cfg lib f1 r1 fs1 file1 d1 j1 hm1 hf1 hr1 hc1 hw1
  have h2 := upload_ok cfg lib f2 r2 fs2 file2 d2 j2 hm2 hf2 hr2 hc2 hw2
  refine ⟨by rw [h1], by rw [h2], hn, hp, ?_⟩
  rw [h2]
  exact FS.write_other _ _ _ _ hp

/-- C8, amended, at a concrete input: a black and a white 1x1 image. -/
theorem distinct_digests_distinct_files_witness :
    (upload Config.default sampleCodec WriteFault.none (sampleRequest samplePPM) emptyFS).2
      = emptyFS.write (path.Join ["storage", fileName sampleJPEG]) sampleJPEG ∧
    (upload Config.default sampleCodec WriteFault.none (sampleRequest samplePPMWhite) emptyFS).2
      = emptyFS.write (path.Join ["storage", fileName sampleJPEGWhite]) sampleJPEGWhite ∧
    fileName sampleJPEG ≠ fileName sampleJPEGWhite ∧
    path.Join ["storage", fileName sampleJPEG] ≠ path.Join ["storage", fileName sampleJPEGWhite] ∧
    (upload Config.default sampleCodec WriteFault.none (sampleRequest samplePPMWhite) emptyFS).2
        (path.Join ["storage", fileName sampleJPEG])
      = emptyFS (path.Join ["storage", fileName sampleJPEG]) :=
  distinct_digests_distinct_files Config.default sampleCodec WriteFault.none WriteFault.none
    (sampleRequest samplePPM) (sampleRequest samplePPMWhite) emptyFS emptyFS
    { content := .ok samplePPM } { content := .ok samplePPMWhite }
    samplePPM samplePPMWhite sampleJPEG sampleJPEGWhite
    rfl rfl rfl rfl rfl rfl rfl rfl rfl rfl (by decide)

/-- C8 as stated fails: two plain PPM files that differ only in white space are different
uploaded contents, both uploads succeed, and both write the same bytes to the same file. -/
theorem distinct_uploads_same_file :
    samplePPM ≠ samplePPMOneLine ∧
    (upload Config.default sampleCodec WriteFault.none (sampleRequest samplePPM) emptyFS).1.status
      = some 200 ∧
    (upload Config.default sampleCodec WriteFault.none (sampleRequest samplePPMOneLine)
      emptyFS).1.status = some 200 ∧
    (upload Config.default sampleCodec WriteFault.none (sampleRequest samplePPM) emptyFS).2
      = emptyFS.write "storage/29192008165422219eefdac1b390b313786dbe7c97d8993ac44b2ddff56f5b70.jpg"
          sampleJPEG ∧
    (upload Config.default sampleCodec WriteFault.none (sampleRequest samplePPMOneLine) emptyFS).2
      = emptyFS.write "storage/29192008165422219eefdac1b390b313786dbe7c97d8993ac44b2ddff56f5b70.jpg"
          sampleJPEG := by
  have hn : path.Join ["storage", fileName sampleJPEG]
      = "storage/29192008165422219eefdac1b390b313786dbe7c97d8993ac44b2ddff56f5b70.jpg" := by
    decide
  refine ⟨by decide, by decide, by decide, ?_, ?_⟩
  · rw [← hn]; rfl
  · rw [← hn]; rfl

/-- C9. A successful upload writes exactly one file and changes nothing else; the name of
that file is 68 characters long, 64 digits of `0123456789abcdef` (the digest of the 32
bytes of SHA-256) followed by `.jpg`; it holds no slash, and the path written splits into
the storage directory and that name. -/
theorem stored_file_name {Image : Type} (cfg : Config) (lib : Codec Image)
    (fault : WriteFault) (r : Request) (fs : FS) (file : MultipartFile) (data j : Bytes)
    (hm : r.Method = "POST") (hf : r.FormFile "image" = .ok file)
    (hr : file.content = .ok data) (hc : ConvertPPMToJPEG lib data = .ok j)
    (hw : (os.WriteFile fault fs (path.Join [cfg.storageDir, fileName j]) j 0o750).1
      = Option.none) :
    (upload cfg lib fault r fs).2 = fs.write (path.Join [cfg.storageDir, fileName j]) j ∧
    (∀ q, q ≠ path.Join [cfg.storageDir, fileName j] → (upload cfg lib fault r fs).2 q = fs q) ∧
    (fileName j).length = 68 ∧
    (fileName j).data = hex.encode (sha256.Sum256 j) ++ ".jpg".data ∧
    (hex.encode (sha256.Sum256 j)).length = 64 ∧
    (∀ c ∈ hex.encode (sha256.Sum256 j), c ∈ "0123456789abcdef".data) ∧
    '/' ∉ (fileName j).data ∧
    path.Split (path.Join [cfg.storageDir, fileName j])
      = (path.asDir cfg.storageDir, fileName j) := by
  have hok := upload_ok cfg lib fault r fs file data j hm hf hr hc hw
  refine ⟨by rw [hok], ?_, fileName_length j, fileName_data j, ?_, hex.encode_mem _,
    (fileName_flat j).2.1, ?_⟩
  rotate_left 2
  · rw [path.asDir_eq]
    exact path.Split_Join_flat _ _ (fileName_flat j)
  · intro q hq
    rw [hok]
    exact FS.write_other _ _ _ _ hq
  · rw [hex.encode_length, sha256.Sum256_length]

/-- C9 at a concrete input. -/
theorem stored_file_name_witness :
    (upload Config.default sampleCodec WriteFault.none (sampleRequest samplePPM) emptyFS).2
      = emptyFS.write (path.Join ["storage", fileName sampleJPEG]) sampleJPEG ∧
    (∀ q, q ≠ path.Join ["storage", fileName sampleJPEG] →
      (upload Config.default sampleCodec WriteFault.none (sampleRequest samplePPM) emptyFS).2 q
        = emptyFS q) ∧
    (fileName sampleJPEG).length = 68 ∧
    (fileName sampleJPEG).data = hex.encode (sha256.Sum256 sampleJPEG) ++ ".jpg".data ∧
    (hex.encode (sha256.Sum256 sampleJPEG)).length = 64 ∧
    (∀ c ∈ hex.encode (sha256.Sum256 sampleJPEG), c ∈ "0123456789abcdef".data) ∧
    '/' ∉ (fileName sampleJPEG).data ∧
    path.Split (path.Join ["storage", fileName sampleJPEG])
      = (path.asDir "storage", fileName sampleJPEG) :=
  stored_file_name Config.default sampleCodec WriteFault.none (sampleRequest samplePPM) emptyFS
    { content := .ok samplePPM } samplePPM sampleJPEG rfl rfl rfl rfl rfl

/-- C10, amended. A POST request whose bytes convert and whose file write fails with error
`e` is answered with status 500 and the body `"Error storing the JPEG: " ++ e ++ "\n"`,
which contains the text of `e`; the handler adds no URL, so the body contains the
retrieval URL only if `e` itself contains `"/files/" ++ name`. -/
theorem upload_store_error {Image : Type} (cfg : Config) (lib : Codec Image)
    (fault : WriteFault) (r : Request) (fs : FS) (file : MultipartFile) (data j : Bytes)
    (e : String)
    (hm : r.Method = "POST") (hf : r.FormFile "image" = .ok file)
    (hr : file.content = .ok data) (hc : ConvertPPMToJPEG lib data = .ok j)
    (hw : (os.WriteFile fault fs (path.Join [cfg.storageDir, fileName j]) j 0o750).1
      = some e) :
    (upload cfg lib fault r fs).1.status = some 500 ∧
    (upload cfg lib fault r fs).1.body = "Error storing the JPEG: " ++ e ++ "\n" ∧
    Contains (upload cfg lib fault r fs).1.body e ∧
    (¬ Contains e ("/files/" ++ fileName j) →
      ¬ Contains (upload cfg lib fault r fs).1.body
        (cfg.baseURL ++ "/files/" ++ hex.EncodeToString (sha256.Sum256 j) ++ ".jpg")) := by
  rw [upload_write_error cfg lib fault r fs file data j e hm hf hr hc hw]
  refine ⟨rfl, Error_body _ _, ?_, ?_⟩
  · simp only [Error_body, Contains, String.data_append]
    exact ⟨"Error storing the JPEG: ".data, "\n".data, rfl⟩
  · intro he
    simp only [Error_body]
    exact url_tail_not_in_error _ _ _ he

set_option maxRecDepth 100000 in
/-- C10, amended, at a concrete input: the default configuration and a write that fails
at open; the error text names `storage/<digest>.jpg`, and the body holds no retrieval URL. -/
theorem upload_store_error_witness :
    (upload Config.default sampleCodec (WriteFault.openFails "permission denied")
      (sampleRequest samplePPM) emptyFS).1.status = some 500 ∧
    (upload Config.default sampleCodec (WriteFault.openFails "permission denied")
      (sampleRequest samplePPM) emptyFS).1.body
      = "Error storing the JPEG: "
        ++ "open storage/29192008165422219eefdac1b390b313786dbe7c97d8993ac44b2ddff56f5b70.jpg: permission denied"
        ++ "\n" ∧
    Contains (upload Config.default sampleCodec (WriteFault.openFails "permission denied")
      (sampleRequest samplePPM) emptyFS).1.body
      "open storage/29192008165422219eefdac1b390b313786dbe7c97d8993ac44b2ddff56f5b70.jpg: permission denied" ∧
    ¬ Contains (upload Config.default sampleCodec (WriteFault.openFails "permission denied")
        (sampleRequest samplePPM) emptyFS).1.body
      ("http://localhost:8080" ++ "/files/" ++ hex.EncodeToString (sha256.Sum256 sampleJPEG)
        ++ ".jpg") :=
  have h := upload_store_error Config.default sampleCodec
    (WriteFault.openFails "permission denied") (sampleRequest samplePPM) emptyFS
    { content := .ok samplePPM } samplePPM sampleJPEG
    "open storage/29192008165422219eefdac1b390b313786dbe7c97d8993ac44b2ddff56f5b70.jpg: permission denied"
    rfl rfl rfl rfl (by decide)
  ⟨h.1, h.2.1, h.2.2.1, h.2.2.2 (by unfold Contains; decide)⟩

set_option maxRecDepth 100000 in
/-- C10 as stated fails: with the storage directory `/files` and an empty base URL, the
error text of a write that fails at open names the path `/files/<digest>.jpg`, which is
the retrieval URL, so the body of the 500 response contains it. -/
theorem store_error_body_contains_url :
    ConvertPPMToJPEG sampleCodec samplePPM = .ok sampleJPEG ∧
    (os.WriteFile (WriteFault.openFails "permission denied") emptyFS
      (path.Join [overlapConfig.storageDir, fileName sampleJPEG]) sampleJPEG 0o750).1
      = some "open /files/29192008165422219eefdac1b390b313786dbe7c97d8993ac44b2ddff56f5b70.jpg: permission denied" ∧
    (upload overlapConfig sampleCodec (WriteFault.openFails "permission denied")
      (sampleRequest samplePPM) emptyFS).1.status = some 500 ∧
    Contains
      (upload overlapConfig sampleCodec (WriteFault.openFails "permission denied")
        (sampleRequest samplePPM) emptyFS).1.body
      (overlapConfig.baseURL ++ "/files/" ++ hex.EncodeToString (sha256.Sum256 sampleJPEG)
        ++ ".jpg") := by
  refine ⟨rfl, by decide, by decide, ?_⟩
  exact ⟨"Error storing the JPEG: open ".data, ": permission denied\n".data, by decide⟩

end Ppm2jpg
